import Mathlib

/-!
Verification of the Failure Attribution and Routing Engine of
`tasks/libs/pipeline/notifications.py`.

Each Python function that the claims reference is shallowly embedded as a
Lean definition with the same name.  External collaborators (the GitLab
API, YAML parsing, the CODEOWNERS file reader, environment variables,
printing) are modelled as explicit inputs/outputs of the functions that use
them, following the spec's description of those interfaces.
-/

/-! ## Test Result Parser: `get_failed_tests` (notifications.py lines 62-91)

The raw artifact is a newline-delimited stream; each line goes through
`json.loads`.  A line is embedded by what `json.loads` observably does with
it: `malformed` (raises `JSONDecodeError`), `noTest` (a valid JSON object
with no `Test` key, skipped by the `if 'Test' in json_test` guard), or
`event package test action` (a test event; per the stream format of spec §6
an event carrying `Test` also carries `Package` and `Action`). -/

inductive JsonLine where
  | malformed : JsonLine
  | noTest : JsonLine
  | event (package : String) (test : String) (action : String) : JsonLine
deriving DecidableEq, Repr

/-- The `Test` object stored as value of the `failed_tests` dict.  The
source builds `Test(owners, name, package)`; the `owners` argument is the
externally parsed CODEOWNERS table, not part of the record's identity, so
the embedding keeps the `(package, name)` payload. -/
structure Test where
  package : String
  name : String
deriving DecidableEq, Repr

/-- The `failed_tests` dict: insertion-ordered association list keyed by
`(package, name)`, with Python-dict semantics (overwriting keeps the key's
position, `del` removes it). -/
abbrev FailedTestsDict := List ((String × String) × Test)

def dictInsert (d : FailedTestsDict) (k : String × String) (v : Test) : FailedTestsDict :=
  match d with
  | [] => [(k, v)]
  | (k', v') :: rest => if k' = k then (k, v) :: rest else (k', v') :: dictInsert rest k v

def dictContains : FailedTestsDict → (String × String) → Bool
  | [], _ => false
  | e :: rest, k => if e.1 = k then true else dictContains rest k

def dictDelete : FailedTestsDict → (String × String) → FailedTestsDict
  | [], _ => []
  | e :: rest, k => if e.1 = k then dictDelete rest k else e :: dictDelete rest k

/-- One iteration of the `for line in test_output.splitlines()` loop.
`json.loads` on a malformed line raises `JSONDecodeError`, which nothing in
`get_failed_tests` catches, so the whole parse aborts (`Except.error`). -/
def processTestLine (d : FailedTestsDict) (line : JsonLine) : Except String FailedTestsDict :=
  match line with
  | .malformed => .error "JSONDecodeError"
  | .noTest => .ok d
  | .event package name action =>
    if action = "fail" then
      -- Ignore subtests, only the parent test should be reported
      if name.data.contains '/' then .ok d
      else .ok (dictInsert d (package, name) ⟨package, name⟩)
    else if action = "pass" ∧ dictContains d (package, name) then
      .ok (dictDelete d (package, name))
    else .ok d

def get_failed_tests_go (lines : List JsonLine) (d : FailedTestsDict) :
    Except String FailedTestsDict :=
  match lines with
  | [] => .ok d
  | line :: rest =>
    match processTestLine d line with
    | .error e => .error e
    | .ok d' => get_failed_tests_go rest d'

/-- The final `failed_tests` dict built by `get_failed_tests` from the
artifact lines (an absent artifact is the empty line list). -/
def get_failed_tests_dict (lines : List JsonLine) : Except String FailedTestsDict :=
  get_failed_tests_go lines []

/-- Finally, `get_failed_tests` returns `failed_tests.values()`. -/
def get_failed_tests (lines : List JsonLine) : Except String (List Test) :=
  (get_failed_tests_dict lines).map (fun d => d.map Prod.snd)

/-! ## Failed jobs and the Ownership Table

`FailedJobReason`, `FailedJobs` and the CODEOWNERS reader come from
`tasks.libs.types.types` and `tasks.libs.owners.parsing`, outside the two
source files; they are modelled from the spec (§3 FailedJob/FailedJobReason,
§4.1 Ownership Table). -/

/-- Modelled from the spec: `FailedJobReason` is a closed enumeration with
at minimum a generic test failure, an e2e infrastructure failure and an
other-infrastructure failure (§3). -/
inductive FailedJobReason where
  | JOB_FAILURE : FailedJobReason
  | E2E_INFRA_FAILURE : FailedJobReason
  | INFRA_FAILURE : FailedJobReason
deriving DecidableEq, Repr

/-- Modelled from the spec: an infra failure is one attributed to
test/CI infrastructure (§3, glossary): the e2e and other infrastructure
reasons. -/
def FailedJobReason.isInfra : FailedJobReason → Bool
  | .E2E_INFRA_FAILURE => true
  | .INFRA_FAILURE => true
  | .JOB_FAILURE => false

/-- Modelled from the spec: a failed job carries its job name, its
"mandatory" flag and its failure reason (§3 FailedJob). -/
structure FailedJob where
  name : String
  mandatory : Bool
  failure_reason : FailedJobReason
deriving DecidableEq, Repr

/-- Modelled from the spec: the `FailedJobs` collection from
`tasks.libs.types.types`, holding the failed jobs of one pipeline run.
`add_failed_job` appends; the accessors used by `find_job_owners` select
the mandatory infra failures resp. all non-infra failures (§3, §4.4). -/
structure FailedJobs where
  jobs : List FailedJob
deriving DecidableEq, Repr

def FailedJobs.add_failed_job (fjs : FailedJobs) (j : FailedJob) : FailedJobs :=
  ⟨fjs.jobs ++ [j]⟩

def FailedJobs.mandatory_infra_job_failures (fjs : FailedJobs) : List FailedJob :=
  fjs.jobs.filter (fun j => j.mandatory && j.failure_reason.isInfra)

def FailedJobs.all_non_infra_failures (fjs : FailedJobs) : List FailedJob :=
  fjs.jobs.filter (fun j => !j.failure_reason.isInfra)

/-- Modelled from the spec: the Ownership Table (`read_owners` result) is
an ordered list of (pattern, ordered owner list) entries, an owner being a
(kind, name) pair with kind `"TEAM"` or `"USERNAME"` (§3 OwnershipEntry,
§6). -/
structure OwnershipTable where
  entries : List (String × List (String × String))
deriving DecidableEq, Repr

/-- Modelled from the spec: `owners.of(key)` collects, in declaration
order, the owners of every entry whose pattern matches the key, and returns
the empty list when nothing matches (§4.1).  Patterns are matched here by
equality with the queried job name; the claims under verification do not
depend on the glob dialect. -/
def ownersOfGo : List (String × List (String × String)) → String → List (String × String)
  | [], _ => []
  | e :: rest, key => (if e.1 = key then e.2 else []) ++ ownersOfGo rest key

def OwnershipTable.of (t : OwnershipTable) (key : String) : List (String × String) :=
  ownersOfGo t.entries key

/-- Whether an owner pair is kept when the team `tm` is removed from the
Ownership Table: everything except the `("TEAM", tm)` pairs. -/
def notTeamPair (tm : String) (p : String × String) : Bool :=
  if p.1 = "TEAM" ∧ p.2 = tm then false else true

/-- Removing a team from the Ownership Table: every `("TEAM", team)` owner
pair is dropped from every entry's owner list. -/
def OwnershipTable.removeTeam (t : OwnershipTable) (team : String) : OwnershipTable :=
  ⟨t.entries.map (fun e => (e.1, e.2.filter (notTeamPair team)))⟩

/-! ## Routing Engine: `find_job_owners` (notifications.py lines 94-111) -/

/-- The `owners_to_notify` defaultdict: insertion-ordered association list
from owner handle to that owner's `FailedJobs` bucket.  A key appears
exactly when `add_failed_job` was called for it at least once. -/
abbrev OwnersToNotify := List (String × FailedJobs)

def addFailedJobTo (d : OwnersToNotify) (team : String) (j : FailedJob) : OwnersToNotify :=
  match d with
  | [] => [(team, ⟨[j]⟩)]
  | (t, b) :: rest =>
    if t = team then (t, b.add_failed_job j) :: rest else (t, b) :: addFailedJobTo rest team j

/-- The jobs of `team`'s bucket (empty when the team has no bucket). -/
def lookupJobs (d : OwnersToNotify) (team : String) : List FailedJob :=
  match d with
  | [] => []
  | (t, b) :: rest => if t = team then b.jobs else lookupJobs rest team

def find_job_owners (failed_jobs : FailedJobs) (owners : OwnershipTable) : OwnersToNotify :=
  -- For e2e test infrastructure errors, notify the agent-e2e-testing team
  let d1 := failed_jobs.mandatory_infra_job_failures.foldl
    (fun d job =>
      if job.failure_reason = .E2E_INFRA_FAILURE then
        addFailedJobTo d "@DataDog/agent-e2e-testing" job
      else d) []
  failed_jobs.all_non_infra_failures.foldl
    (fun d job =>
      (owners.of job.name).foldl
        (fun d' p => if p.1 = "TEAM" then addFailedJobTo d' p.2 job else d') d) d1

/-! ## Channel/Project Registry:
`check_for_missing_owners_slack_and_jira` (notifications.py lines 45-59)

The CODEOWNERS reader (`read_owners`, external) yields `owners.paths`; the
code reads `path[2]` as the ordered (kind, name) owner list of the path, so
a path is modelled by its pattern and that list.  The two registry maps are
dicts from lowercase team handle to channel/project; only key membership is
consulted here.  A `print` call is modelled as an emitted diagnostic. -/

structure CodeownersPath where
  pattern : String
  owners : List (String × String)
deriving DecidableEq, Repr

/-- A missing-mapping diagnostic, one per `print` in the source. -/
inductive Diag where
  | missingSlack (team : String) : Diag
  | missingJira (team : String) : Diag
deriving DecidableEq, Repr

def hasKey : List (String × String) → String → Bool
  | [], _ => false
  | e :: rest, k => if e.1 = k then true else hasKey rest k

/-- The `for path in owners.paths` loop, threading the `error` flag and the
printed diagnostics. -/
def check_owners_go (slackMap jiraMap : List (String × String)) :
    List CodeownersPath → Bool → List Diag → Bool × List Diag
  | [], err, msgs => (err, msgs)
  | p :: rest, err, msgs =>
    match p.owners with
    | [] => check_owners_go slackMap jiraMap rest err msgs
    | (kind, team) :: _ =>
      if kind ≠ "TEAM" then check_owners_go slackMap jiraMap rest err msgs
      else
        let s1 := if ¬hasKey slackMap team.toLower then
            (true, msgs ++ [Diag.missingSlack team]) else (err, msgs)
        let s2 := if ¬hasKey jiraMap team.toLower then
            (true, s1.2 ++ [Diag.missingJira team]) else s1
        check_owners_go slackMap jiraMap rest s2.1 s2.2

/-- The audit `check_for_missing_owners_slack_and_jira` with
`print_missing_teams` left at its default `True`: returns the `error`
flag, paired with the printed diagnostics. -/
def check_for_missing_owners_slack_and_jira (paths : List CodeownersPath)
    (slackMap jiraMap : List (String × String)) : Bool × List Diag :=
  check_owners_go slackMap jiraMap paths false []

/-! ## Message Composer: `get_pr_from_commit` and `base_message`
(notifications.py lines 114-144) -/

def DATADOG_AGENT_GITHUB_ORG_URL : String := "https://github.com/DataDog"

/-- Backward scan over the reversed character list implementing
`re.search(".*\\(#([0-9]*)\\)$", title)`: a final `)`, then a (possibly
empty) maximal digit run, then `#(` must precede it.  Returns the captured
digit run in reading order. -/
def revParsePr (l : List Char) : Option String :=
  if l.head? = some ')' then
    if (l.tail.dropWhile Char.isDigit).head? = some '#'
        ∧ ((l.tail.dropWhile Char.isDigit).tail).head? = some '(' then
      some ⟨(l.tail.takeWhile Char.isDigit).reverse⟩
    else none
  else none

/-- In Python, `$` matches at the end of the string or just before a
single newline at the end of the string, so a title ending `)\n` also
matches; the scan therefore first drops one trailing newline when
present. -/
def revParsePrNl (l : List Char) : Option String :=
  revParsePr (if l.head? = some '\n' then l.tail else l)

def trailingPrId (title : String) : Option String :=
  revParsePrNl title.data.reverse

def get_pr_from_commit (commit_title project_title : String) : Option (String × String) :=
  match trailingPrId commit_title with
  | none => none
  | some parsed_pr_id =>
    some (parsed_pr_id,
      DATADOG_AGENT_GITHUB_ORG_URL ++ "/" ++ project_title ++ "/pull/" ++ parsed_pr_id)

/-- The `enhanced_commit_title` computed by `base_message` (lines 137-141):
when a PR id is found, every occurrence of `#<id>` in the title is replaced
by the Slack-style link (Python `str.replace` replaces all occurrences, as
does `String.replace`). -/
def enhanced_commit_title (commit_title project_title : String) : String :=
  match get_pr_from_commit commit_title project_title with
  | none => commit_title
  | some (parsed_pr_id, pr_url_github) =>
    commit_title.replace ("#" ++ parsed_pr_id) ("<" ++ pr_url_github ++ "|#" ++ parsed_pr_id ++ ">")

/-- The CI metadata `base_message` reads from the environment and from
`get_git_author()`, supplied by external collaborators (spec §3
NotificationContext). -/
structure NotificationCtx where
  project_title : String
  commit_title : String
  pipeline_url : String
  pipeline_id : String
  commit_ref_name : String
  project_url : String
  commit_sha : String
  commit_short_sha : String
  author : String
deriving DecidableEq, Repr

def base_message (ctx : NotificationCtx) (header state : String) : String :=
  header ++ " pipeline <" ++ ctx.pipeline_url ++ "|" ++ ctx.pipeline_id ++ "> for "
    ++ ctx.commit_ref_name ++ " " ++ state ++ ".\n"
    ++ enhanced_commit_title ctx.commit_title ctx.project_title
    ++ " (<" ++ ctx.project_url ++ "/commit/" ++ ctx.commit_sha ++ "|" ++ ctx.commit_short_sha
    ++ ">)(:github: <" ++ DATADOG_AGENT_GITHUB_ORG_URL ++ "/" ++ ctx.project_title
    ++ "/commit/" ++ ctx.commit_sha ++ "|link>) by " ++ ctx.author

/-! ## Config loading: `load_and_validate` (notifications.py lines 20-34)

The file read and `yaml.safe_load` are external; the loader's own logic is
the loop over the parsed mapping's items.  A parsed YAML scalar is either a
string or something else. -/

inductive YamlValue where
  | str (s : String) : YamlValue
  | other : YamlValue
deriving DecidableEq, Repr

def assocInsert (d : List (String × String)) (k v : String) : List (String × String) :=
  match d with
  | [] => [(k, v)]
  | (k', v') :: rest => if k' = k then (k, v) :: rest else (k', v') :: assocInsert rest k v

/-- The `for key, value in ...items()` loop: a non-string key or value
raises `ValueError` immediately, otherwise the value is stored with the
placeholder replaced by the default. -/
def load_and_validate_go (file_name default_placeholder default_value : String) :
    List (YamlValue × YamlValue) → List (String × String) →
      Except String (List (String × String))
  | [], acc => .ok acc
  | (k, v) :: rest, acc =>
    match k, v with
    | .str ks, .str vs =>
      load_and_validate_go file_name default_placeholder default_value rest
        (assocInsert acc ks (if vs = default_placeholder then default_value else vs))
    | _, _ => .error ("File " ++ file_name ++ " contains a non-string key or value.")

/-- The loader `load_and_validate`, applied to the items of the
already-parsed YAML mapping of the named file. -/
def load_and_validate (items : List (YamlValue × YamlValue))
    (file_name default_placeholder default_value : String) :
    Except String (List (String × String)) :=
  load_and_validate_go file_name default_placeholder default_value items []

/-! ## Derived notions used to state the verified properties -/

/-- Whether a stream line is a `fail` event for the pair `(p, n)`. -/
def isFailFor (p n : String) : JsonLine → Bool
  | .event package test action => package = p ∧ test = n ∧ action = "fail"
  | _ => false

/-- How many times `("TEAM", team)` occurs in an owner list. -/
def countTeam : List (String × String) → String → Nat
  | [], _ => 0
  | p :: rest, team => (if p.1 = "TEAM" ∧ p.2 = team then 1 else 0) + countTeam rest team

/-- The contribution of the e2e-infrastructure loop of `find_job_owners` to
`team`'s bucket: every listed job with reason `E2E_INFRA_FAILURE`, and only
into the fixed fallback owner's bucket. -/
def e2eBucket (team : String) : List FailedJob → List FailedJob
  | [] => []
  | j :: rest =>
    (if j.failure_reason = .E2E_INFRA_FAILURE ∧ team = "@DataDog/agent-e2e-testing"
      then [j] else []) ++ e2eBucket team rest

/-- The contribution of the Ownership-Table loop of `find_job_owners` to
`team`'s bucket: each job once per `("TEAM", team)` occurrence among its
name's owners. -/
def tableBucket (table : OwnershipTable) (team : String) : List FailedJob → List FailedJob
  | [] => []
  | j :: rest => List.replicate (countTeam (table.of j.name) team) j ++ tableBucket table team rest

/-- The diagnostics the audit emits for a single CODEOWNERS path. -/
def pathDiags (slackMap jiraMap : List (String × String)) (p : CodeownersPath) : List Diag :=
  match p.owners with
  | [] => []
  | (kind, team) :: _ =>
    if kind ≠ "TEAM" then []
    else
      (if ¬hasKey slackMap team.toLower then [Diag.missingSlack team] else [])
        ++ (if ¬hasKey jiraMap team.toLower then [Diag.missingJira team] else [])

/-- All diagnostics the audit emits across the path list, in order. -/
def allDiags (slackMap jiraMap : List (String × String)) : List CodeownersPath → List Diag
  | [] => []
  | p :: rest => pathDiags slackMap jiraMap p ++ allDiags slackMap jiraMap rest

/-- How many paths have `("TEAM", team)` as their first listed owner. -/
def countPathsFirstTeam : List CodeownersPath → String → Nat
  | [], _ => 0
  | p :: rest, team =>
    (match p.owners with
      | owner :: _ => if owner.1 = "TEAM" ∧ owner.2 = team then 1 else 0
      | [] => 0) + countPathsFirstTeam rest team

def lookupAssoc : List (String × String) → String → Option String
  | [], _ => none
  | e :: rest, k => if e.1 = k then some e.2 else lookupAssoc rest k

def YamlValue.isStr : YamlValue → Bool
  | .str _ => true
  | .other => false

/-- Every key of the dict has a slash-free test name. -/
def NoSlashKeys (d : FailedTestsDict) : Prop :=
  ∀ k : String × String, dictContains d k = true → k.2.data.contains '/' = false

/-! ## Lemmas about the `failed_tests` dict operations -/

lemma dictContains_insert (d : FailedTestsDict) (k0 k : String × String) (v : Test) :
    dictContains (dictInsert d k0 v) k = (decide (k = k0) || dictContains d k) := by
  induction d with
  | nil =>
    by_cases h : k = k0
    · subst h; simp [dictInsert, dictContains]
    · simp [dictInsert, dictContains, h, Ne.symm h]
  | cons e rest ih =>
    rcases e with ⟨ke, ve⟩
    by_cases hkk0 : k = k0
    · subst hkk0
      by_cases hek : ke = k
      · subst hek
        simp [dictInsert, dictContains]
      · simp [dictInsert, dictContains, hek, ih]
    · by_cases hek0 : ke = k0
      · subst hek0
        simp [dictInsert, dictContains, hkk0, Ne.symm hkk0]
      · by_cases hek : ke = k
        · simp [dictInsert, dictContains, hek0, hek, hkk0]
        · simp [dictInsert, dictContains, hek0, hek, hkk0, ih]

lemma dictContains_delete (d : FailedTestsDict) (k0 k : String × String) :
    dictContains (dictDelete d k0) k = (decide (k ≠ k0) && dictContains d k) := by
  induction d with
  | nil => simp [dictDelete, dictContains]
  | cons e rest ih =>
    rcases e with ⟨ke, ve⟩
    by_cases hkk0 : k = k0
    · subst hkk0
      by_cases hek : ke = k
      · subst hek
        simp [dictDelete, dictContains, ih]
      · simp [dictDelete, dictContains, hek, ih]
    · by_cases hek0 : ke = k0
      · subst hek0
        simp [dictDelete, dictContains, hkk0, Ne.symm hkk0, ih]
      · by_cases hek : ke = k
        · simp [dictDelete, dictContains, hek0, hek, hkk0]
        · simp [dictDelete, dictContains, hek0, hek, hkk0, ih]

/-! ## Lemmas about the test-result parse loop -/

lemma processTestLine_ok_of_ne_malformed (d : FailedTestsDict) (l : JsonLine)
    (h : l ≠ JsonLine.malformed) : ∃ d', processTestLine d l = .ok d' := by
  cases l with
  | malformed => exact absurd rfl h
  | noTest => exact ⟨d, rfl⟩
  | event package name action =>
    by_cases hf : action = "fail"
    · by_cases hs : '/' ∈ name.data
      · exact ⟨d, by simp [processTestLine, hf, hs]⟩
      · exact ⟨dictInsert d (package, name) ⟨package, name⟩, by simp [processTestLine, hf, hs]⟩
    · by_cases hp : action = "pass" ∧ dictContains d (package, name)
      · exact ⟨dictDelete d (package, name), by simp [processTestLine, hf, hp]⟩
      · exact ⟨d, by simp [processTestLine, hf, hp]⟩

lemma processTestLine_pass (d : FailedTestsDict) (p n : String) :
    ∃ d', processTestLine d (JsonLine.event p n "pass") = .ok d'
      ∧ dictContains d' (p, n) = false := by
  by_cases hc : dictContains d (p, n)
  · refine ⟨dictDelete d (p, n), by simp [processTestLine, hc], ?_⟩
    simp [dictContains_delete]
  · exact ⟨d, by simp [processTestLine, hc], by simp [hc]⟩

lemma processTestLine_pass_noop (d : FailedTestsDict) (p n : String)
    (h : dictContains d (p, n) = false) :
    processTestLine d (JsonLine.event p n "pass") = .ok d := by
  simp [processTestLine, h]

lemma absent_step (d d' : FailedTestsDict) (l : JsonLine) (p n : String)
    (habs : dictContains d (p, n) = false) (hnf : isFailFor p n l = false)
    (hok : processTestLine d l = .ok d') : dictContains d' (p, n) = false := by
  cases l with
  | malformed => exact absurd hok (by simp [processTestLine])
  | noTest =>
    simp [processTestLine] at hok
    exact hok ▸ habs
  | event package name action =>
    by_cases hf : action = "fail"
    · subst hf
      have hne : ¬(package = p ∧ name = n) := by
        intro ⟨h1, h2⟩
        simp [isFailFor, h1, h2] at hnf
      by_cases hs : '/' ∈ name.data
      · simp [processTestLine, hs] at hok
        exact hok ▸ habs
      · simp [processTestLine, hs] at hok
        rw [← hok, dictContains_insert, habs]
        have : (p, n) ≠ (package, name) := by
          intro h
          exact hne ⟨(Prod.mk.injEq _ _ _ _ ▸ h).1.symm, (Prod.mk.injEq _ _ _ _ ▸ h).2.symm⟩
        simp [this]
    · by_cases hp : action = "pass" ∧ dictContains d (package, name)
      · simp [processTestLine, hf, hp] at hok
        rw [← hok, dictContains_delete, habs]
        simp
      · simp [processTestLine, hf, hp] at hok
        exact hok ▸ habs

lemma absent_preserved (p n : String) :
    ∀ (lines : List JsonLine) (d m : FailedTestsDict),
      (∀ l ∈ lines, isFailFor p n l = false) →
      dictContains d (p, n) = false →
      get_failed_tests_go lines d = .ok m → dictContains m (p, n) = false := by
  intro lines
  induction lines with
  | nil =>
    intro d m _ habs hok
    simp [get_failed_tests_go] at hok
    exact hok ▸ habs
  | cons l rest ih =>
    intro d m hnf habs hok
    rcases hpl : processTestLine d l with e | d'
    · simp [get_failed_tests_go, hpl] at hok
    · simp only [get_failed_tests_go, hpl] at hok
      exact ih d' m (fun x hx => hnf x (List.mem_cons_of_mem _ hx))
        (absent_step d d' l p n habs (hnf l (List.mem_cons_self _ _)) hpl) hok

lemma go_append (a b : List JsonLine) (d : FailedTestsDict) :
    get_failed_tests_go (a ++ b) d =
      match get_failed_tests_go a d with
      | .error e => .error e
      | .ok d' => get_failed_tests_go b d' := by
  induction a generalizing d with
  | nil => simp [get_failed_tests_go]
  | cons l rest ih =>
    rcases hpl : processTestLine d l with e | d'
    · simp [get_failed_tests_go, hpl]
    · simp [get_failed_tests_go, hpl, ih]

lemma go_cons_ok (l : JsonLine) (rest : List JsonLine) (d d' : FailedTestsDict)
    (h : processTestLine d l = .ok d') :
    get_failed_tests_go (l :: rest) d = get_failed_tests_go rest d' := by
  simp [get_failed_tests_go, h]

lemma go_append_ok (a b : List JsonLine) (d d1 : FailedTestsDict)
    (h : get_failed_tests_go a d = .ok d1) :
    get_failed_tests_go (a ++ b) d = get_failed_tests_go b d1 := by
  rw [go_append, h]

lemma noSlash_step (d d' : FailedTestsDict) (l : JsonLine)
    (hns : NoSlashKeys d) (hok : processTestLine d l = .ok d') : NoSlashKeys d' := by
  cases l with
  | malformed => simp [processTestLine] at hok
  | noTest =>
    simp [processTestLine] at hok
    exact hok ▸ hns
  | event package name action =>
    by_cases hf : action = "fail"
    · by_cases hs : '/' ∈ name.data
      · simp [processTestLine, hf, hs] at hok
        exact hok ▸ hns
      · simp [processTestLine, hf, hs] at hok
        intro k hk
        rw [← hok, dictContains_insert] at hk
        rcases Bool.or_eq_true_iff.mp hk with h1 | h2
        · have hkk : k = (package, name) := of_decide_eq_true h1
          subst hkk
          simpa using hs
        · exact hns k h2
    · by_cases hp : action = "pass" ∧ dictContains d (package, name) = true
      · simp [processTestLine, hf, hp] at hok
        intro k hk
        rw [← hok, dictContains_delete] at hk
        exact hns k (Bool.and_eq_true_iff.mp hk).2
      · simp [processTestLine, hf, hp] at hok
        exact hok ▸ hns

lemma noSlash_go : ∀ (lines : List JsonLine) (d m : FailedTestsDict),
    NoSlashKeys d → get_failed_tests_go lines d = .ok m → NoSlashKeys m := by
  intro lines
  induction lines with
  | nil =>
    intro d m hns hok
    simp [get_failed_tests_go] at hok
    exact hok ▸ hns
  | cons l rest ih =>
    intro d m hns hok
    rcases hpl : processTestLine d l with e | d'
    · simp [get_failed_tests_go, hpl] at hok
    · simp only [get_failed_tests_go, hpl] at hok
      exact ih d' m (noSlash_step d d' l hns hpl) hok

lemma go_error_of_malformed (lines : List JsonLine) (hm : JsonLine.malformed ∈ lines) :
    ∀ d, get_failed_tests_go lines d = .error "JSONDecodeError" := by
  induction lines with
  | nil => exact absurd hm (List.not_mem_nil _)
  | cons l rest ih =>
    intro d
    by_cases hl : l = JsonLine.malformed
    · subst hl
      simp [get_failed_tests_go, processTestLine]
    · obtain ⟨d', hd'⟩ := processTestLine_ok_of_ne_malformed d l hl
      have hrest : JsonLine.malformed ∈ rest := by
        rcases List.mem_cons.mp hm with h | h
        · exact absurd h.symm hl
        · exact h
      simp [get_failed_tests_go, hd', ih hrest]

/-! ## Lemmas about the routing engine -/

lemma foldl_preserves {α β : Type} (P : β → Prop) (f : β → α → β)
    (hstep : ∀ b a, P b → P (f b a)) : ∀ (l : List α) (b : β), P b → P (l.foldl f b) := by
  intro l
  induction l with
  | nil => intro b hb; exact hb
  | cons a rest ih => intro b hb; exact ih _ (hstep b a hb)

lemma lookupJobs_add (d : OwnersToNotify) (t team : String) (j : FailedJob) :
    lookupJobs (addFailedJobTo d t j) team =
      if t = team then lookupJobs d team ++ [j] else lookupJobs d team := by
  induction d with
  | nil =>
    by_cases h : t = team
    · subst h; simp [addFailedJobTo, lookupJobs]
    · simp [addFailedJobTo, lookupJobs, h]
  | cons e rest ih =>
    rcases e with ⟨t0, b0⟩
    by_cases h0 : t0 = t
    · subst h0
      by_cases h : t0 = team
      · subst h; simp [addFailedJobTo, lookupJobs, FailedJobs.add_failed_job]
      · simp [addFailedJobTo, lookupJobs, h]
    · by_cases h : t0 = team
      · subst h
        have ht : ¬(t = t0) := fun hh => h0 hh.symm
        simp [addFailedJobTo, lookupJobs, h0, ht]
      · simp [addFailedJobTo, lookupJobs, h0, h, ih]

lemma lookupJobs_ownersFold (ps : List (String × String)) (j : FailedJob) (team : String) :
    ∀ d : OwnersToNotify,
      lookupJobs
          (ps.foldl (fun d' p => if p.1 = "TEAM" then addFailedJobTo d' p.2 j else d') d) team
        = lookupJobs d team ++ List.replicate (countTeam ps team) j := by
  induction ps with
  | nil => intro d; simp [countTeam]
  | cons p rest ih =>
    intro d
    rcases p with ⟨kind, owner⟩
    by_cases hk : kind = "TEAM"
    · subst hk
      by_cases ho : owner = team
      · subst ho
        simp [List.foldl_cons, ih, lookupJobs_add, countTeam, List.replicate_add,
          List.append_assoc]
      · simp [List.foldl_cons, ih, lookupJobs_add, countTeam, ho]
    · simp [List.foldl_cons, hk, ih, countTeam]

lemma lookupJobs_e2eFold (js : List FailedJob) (team : String) :
    ∀ d : OwnersToNotify,
      lookupJobs
          (js.foldl (fun d job =>
            if job.failure_reason = .E2E_INFRA_FAILURE then
              addFailedJobTo d "@DataDog/agent-e2e-testing" job
            else d) d) team
        = lookupJobs d team ++ e2eBucket team js := by
  induction js with
  | nil => intro d; simp [e2eBucket]
  | cons j rest ih =>
    intro d
    by_cases hr : j.failure_reason = .E2E_INFRA_FAILURE
    · by_cases ht : team = "@DataDog/agent-e2e-testing"
      · subst ht
        simp [List.foldl_cons, hr, ih, lookupJobs_add, e2eBucket, List.append_assoc]
      · have ht' : ¬("@DataDog/agent-e2e-testing" = team) := fun hh => ht hh.symm
        simp [List.foldl_cons, hr, ih, lookupJobs_add, e2eBucket, ht, ht']
    · simp [List.foldl_cons, hr, ih, e2eBucket]

lemma lookupJobs_tableFold (table : OwnershipTable) (team : String) :
    ∀ (js : List FailedJob) (d : OwnersToNotify),
      lookupJobs
          (js.foldl (fun d job =>
            (table.of job.name).foldl
              (fun d' p => if p.1 = "TEAM" then addFailedJobTo d' p.2 job else d') d) d) team
        = lookupJobs d team ++ tableBucket table team js := by
  intro js
  induction js with
  | nil => intro d; simp [tableBucket]
  | cons j rest ih =>
    intro d
    simp [List.foldl_cons, ih, lookupJobs_ownersFold, tableBucket, List.append_assoc]

lemma lookupJobs_find_job_owners (fjs : FailedJobs) (table : OwnershipTable) (team : String) :
    lookupJobs (find_job_owners fjs table) team
      = e2eBucket team fjs.mandatory_infra_job_failures
          ++ tableBucket table team fjs.all_non_infra_failures := by
  simp only [find_job_owners]
  rw [lookupJobs_tableFold, lookupJobs_e2eFold]
  simp [lookupJobs]

lemma mem_e2eBucket_of (js : List FailedJob) (j : FailedJob) (hj : j ∈ js)
    (hr : j.failure_reason = .E2E_INFRA_FAILURE) :
    j ∈ e2eBucket "@DataDog/agent-e2e-testing" js := by
  induction js with
  | nil => cases hj
  | cons a rest ih =>
    simp only [e2eBucket]
    rcases List.mem_cons.mp hj with h | h
    · subst h
      exact List.mem_append_left _ (by simp [hr])
    · exact List.mem_append_right _ (ih h)

lemma mem_e2eBucket (team : String) (js : List FailedJob) (j : FailedJob)
    (h : j ∈ e2eBucket team js) :
    j.failure_reason = .E2E_INFRA_FAILURE ∧ team = "@DataDog/agent-e2e-testing" := by
  induction js with
  | nil => simp [e2eBucket] at h
  | cons a rest ih =>
    simp only [e2eBucket] at h
    rcases List.mem_append.mp h with h1 | h2
    · by_cases hc : a.failure_reason = .E2E_INFRA_FAILURE ∧ team = "@DataDog/agent-e2e-testing"
      · rw [if_pos hc] at h1
        rcases List.mem_singleton.mp h1 with rfl
        exact hc
      · rw [if_neg hc] at h1
        cases h1
    · exact ih h2

lemma countTeam_pos (ps : List (String × String)) (team : String)
    (h : ("TEAM", team) ∈ ps) : 0 < countTeam ps team := by
  induction ps with
  | nil => cases h
  | cons p rest ih =>
    rcases List.mem_cons.mp h with h1 | h2
    · rw [← h1]
      simp [countTeam]
    · have hpos := ih h2
      by_cases hc : p.1 = "TEAM" ∧ p.2 = team
      · simp [countTeam, hc]
      · simp only [countTeam]
        rw [if_neg hc]
        omega

lemma mem_of_countTeam_pos (ps : List (String × String)) (team : String)
    (h : 0 < countTeam ps team) : ("TEAM", team) ∈ ps := by
  induction ps with
  | nil => simp [countTeam] at h
  | cons p rest ih =>
    by_cases hc : p.1 = "TEAM" ∧ p.2 = team
    · have : p = ("TEAM", team) := Prod.ext hc.1 hc.2
      exact this ▸ List.mem_cons_self _ _
    · simp [countTeam, hc] at h
      exact List.mem_cons_of_mem _ (ih h)

lemma mem_tableBucket_of (table : OwnershipTable) (team : String)
    (js : List FailedJob) (j : FailedJob) (hj : j ∈ js)
    (hc : ("TEAM", team) ∈ table.of j.name) : j ∈ tableBucket table team js := by
  induction js with
  | nil => cases hj
  | cons a rest ih =>
    simp only [tableBucket]
    rcases List.mem_cons.mp hj with h | h
    · subst h
      refine List.mem_append_left _ ?_
      rw [List.mem_replicate]
      exact ⟨Nat.pos_iff_ne_zero.mp (countTeam_pos _ _ hc), rfl⟩
    · exact List.mem_append_right _ (ih h)

lemma mem_tableBucket (table : OwnershipTable) (team : String)
    (js : List FailedJob) (j : FailedJob) (h : j ∈ tableBucket table team js) :
    j ∈ js ∧ ("TEAM", team) ∈ table.of j.name := by
  induction js with
  | nil => simp [tableBucket] at h
  | cons a rest ih =>
    simp only [tableBucket] at h
    rcases List.mem_append.mp h with h1 | h2
    · rcases (List.mem_replicate.mp h1) with ⟨hne, rfl⟩
      exact ⟨List.mem_cons_self _ _, mem_of_countTeam_pos _ _ (Nat.pos_of_ne_zero hne)⟩
    · exact ⟨List.mem_cons_of_mem _ (ih h2).1, (ih h2).2⟩

lemma mem_keys_addFailedJobTo (d : OwnersToNotify) (t team : String) (j : FailedJob) :
    team ∈ (addFailedJobTo d t j).map Prod.fst ↔ team ∈ d.map Prod.fst ∨ team = t := by
  induction d with
  | nil => simp [addFailedJobTo]
  | cons e rest ih =>
    rcases e with ⟨t0, b0⟩
    by_cases h0 : t0 = t
    · subst h0
      simp [addFailedJobTo]
      tauto
    · simp [addFailedJobTo, h0, ih]
      tauto

lemma nodup_keys_addFailedJobTo (d : OwnersToNotify) (t : String) (j : FailedJob)
    (h : (d.map Prod.fst).Nodup) : ((addFailedJobTo d t j).map Prod.fst).Nodup := by
  induction d with
  | nil => simp [addFailedJobTo]
  | cons e rest ih =>
    rcases e with ⟨t0, b0⟩
    rw [List.map_cons, List.nodup_cons] at h
    rcases h with ⟨h1, h2⟩
    by_cases h0 : t0 = t
    · subst h0
      have heq : addFailedJobTo ((t0, b0) :: rest) t0 j
          = (t0, b0.add_failed_job j) :: rest := by
        simp [addFailedJobTo]
      rw [heq, List.map_cons, List.nodup_cons]
      exact ⟨h1, h2⟩
    · have heq : addFailedJobTo ((t0, b0) :: rest) t j
          = (t0, b0) :: addFailedJobTo rest t j := by
        simp [addFailedJobTo, h0]
      rw [heq, List.map_cons, List.nodup_cons]
      refine ⟨?_, ih h2⟩
      show t0 ∉ (addFailedJobTo rest t j).map Prod.fst
      rw [mem_keys_addFailedJobTo]
      rintro (hk | hk)
      · exact h1 hk
      · exact h0 hk

lemma nodup_keys_find_job_owners (fjs : FailedJobs) (table : OwnershipTable) :
    ((find_job_owners fjs table).map Prod.fst).Nodup := by
  simp only [find_job_owners]
  apply foldl_preserves (fun d : OwnersToNotify => (d.map Prod.fst).Nodup)
  · intro d job hd
    apply foldl_preserves (fun d : OwnersToNotify => (d.map Prod.fst).Nodup)
    · intro d' p hd'
      by_cases hk : p.1 = "TEAM"
      · simpa [hk] using nodup_keys_addFailedJobTo d' p.2 job hd'
      · simpa [hk] using hd'
    · exact hd
  · apply foldl_preserves (fun d : OwnersToNotify => (d.map Prod.fst).Nodup)
    · intro d job hd
      by_cases hr : job.failure_reason = .E2E_INFRA_FAILURE
      · simpa [hr] using nodup_keys_addFailedJobTo d _ job hd
      · simpa [hr] using hd
    · simp

lemma lookupJobs_eq_of_mem (d : OwnersToNotify) (team : String) (b : FailedJobs)
    (hnd : (d.map Prod.fst).Nodup) (h : (team, b) ∈ d) : lookupJobs d team = b.jobs := by
  induction d with
  | nil => cases h
  | cons e rest ih =>
    rcases e with ⟨t0, b0⟩
    rw [List.map_cons, List.nodup_cons] at hnd
    rcases hnd with ⟨h1, h2⟩
    rcases List.mem_cons.mp h with hh | hh
    · injection hh with h3 h4
      subst h3
      subst h4
      simp [lookupJobs]
    · by_cases h0 : t0 = team
      · subst h0
        exact absurd (List.mem_map.mpr ⟨(t0, b), hh, rfl⟩) h1
      · simp only [lookupJobs]
        rw [if_neg h0]
        exact ih h2 hh

lemma key_addFailedJobTo (d : OwnersToNotify) (t : String) (j : FailedJob)
    (e : String × FailedJobs) (h : e ∈ addFailedJobTo d t j) :
    e.1 = t ∨ ∃ b, (e.1, b) ∈ d := by
  induction d with
  | nil =>
    simp [addFailedJobTo] at h
    exact Or.inl (by rw [h])
  | cons e0 rest ih =>
    rcases e0 with ⟨t0, b0⟩
    by_cases h0 : t0 = t
    · subst h0
      have heq : addFailedJobTo ((t0, b0) :: rest) t0 j
          = (t0, b0.add_failed_job j) :: rest := by
        simp [addFailedJobTo]
      rw [heq] at h
      rcases List.mem_cons.mp h with hh | hh
      · exact Or.inl (by rw [hh])
      · exact Or.inr ⟨e.2, List.mem_cons_of_mem _ hh⟩
    · have heq : addFailedJobTo ((t0, b0) :: rest) t j
          = (t0, b0) :: addFailedJobTo rest t j := by
        simp [addFailedJobTo, h0]
      rw [heq] at h
      rcases List.mem_cons.mp h with hh | hh
      · exact Or.inr ⟨b0, by rw [hh]; exact List.mem_cons_self _ _⟩
      · rcases ih hh with h1 | ⟨b, hb⟩
        · exact Or.inl h1
        · exact Or.inr ⟨b, List.mem_cons_of_mem _ hb⟩

lemma key_ownersFold (ps : List (String × String)) (j : FailedJob) :
    ∀ (d : OwnersToNotify) (e : String × FailedJobs),
      e ∈ ps.foldl (fun d' p => if p.1 = "TEAM" then addFailedJobTo d' p.2 j else d') d →
      (∃ b, (e.1, b) ∈ d) ∨ ("TEAM", e.1) ∈ ps := by
  induction ps with
  | nil =>
    intro d e h
    exact Or.inl ⟨e.2, by simpa using h⟩
  | cons p rest ih =>
    intro d e h
    rw [List.foldl_cons] at h
    rcases ih _ e h with h1 | h2
    · rcases h1 with ⟨b, hb⟩
      by_cases hk : p.1 = "TEAM"
      · rw [if_pos hk] at hb
        rcases key_addFailedJobTo _ _ _ _ hb with hh | ⟨b', hb'⟩
        · exact Or.inr (List.mem_cons.mpr (Or.inl (Prod.ext hk hh.symm).symm))
        · exact Or.inl ⟨b', hb'⟩
      · rw [if_neg hk] at hb
        exact Or.inl ⟨b, hb⟩
    · exact Or.inr (List.mem_cons_of_mem _ h2)

lemma key_e2eFold (js : List FailedJob) :
    ∀ (d : OwnersToNotify) (e : String × FailedJobs),
      e ∈ js.foldl (fun d job =>
          if job.failure_reason = .E2E_INFRA_FAILURE then
            addFailedJobTo d "@DataDog/agent-e2e-testing" job
          else d) d →
      (∃ b, (e.1, b) ∈ d) ∨ e.1 = "@DataDog/agent-e2e-testing" := by
  induction js with
  | nil =>
    intro d e h
    exact Or.inl ⟨e.2, by simpa using h⟩
  | cons job rest ih =>
    intro d e h
    rw [List.foldl_cons] at h
    rcases ih _ e h with h1 | h2
    · rcases h1 with ⟨b, hb⟩
      by_cases hr : job.failure_reason = .E2E_INFRA_FAILURE
      · rw [if_pos hr] at hb
        rcases key_addFailedJobTo _ _ _ _ hb with hh | ⟨b', hb'⟩
        · exact Or.inr hh
        · exact Or.inl ⟨b', hb'⟩
      · rw [if_neg hr] at hb
        exact Or.inl ⟨b, hb⟩
    · exact Or.inr h2

lemma key_tableFold (table : OwnershipTable) (js : List FailedJob) :
    ∀ (d : OwnersToNotify) (e : String × FailedJobs),
      e ∈ js.foldl (fun d job =>
          (table.of job.name).foldl
            (fun d' p => if p.1 = "TEAM" then addFailedJobTo d' p.2 job else d') d) d →
      (∃ b, (e.1, b) ∈ d) ∨ ∃ j ∈ js, ("TEAM", e.1) ∈ table.of j.name := by
  induction js with
  | nil =>
    intro d e h
    exact Or.inl ⟨e.2, by simpa using h⟩
  | cons job rest ih =>
    intro d e h
    rw [List.foldl_cons] at h
    rcases ih _ e h with h1 | h2
    · rcases h1 with ⟨b, hb⟩
      rcases key_ownersFold _ job _ _ hb with hh | hh
      · exact Or.inl hh
      · exact Or.inr ⟨job, List.mem_cons_self _ _, hh⟩
    · rcases h2 with ⟨j, hjmem, hj⟩
      exact Or.inr ⟨j, List.mem_cons_of_mem _ hjmem, hj⟩

lemma ownersOfGo_map_filter (entries : List (String × List (String × String)))
    (key : String) (q : String × String → Bool) :
    ownersOfGo (entries.map (fun e => (e.1, e.2.filter q))) key
      = (ownersOfGo entries key).filter q := by
  induction entries with
  | nil => simp [ownersOfGo]
  | cons e rest ih =>
    by_cases h : e.1 = key <;> simp [ownersOfGo, h, ih, List.filter_append]

lemma of_removeTeam (table : OwnershipTable) (tm key : String) :
    (table.removeTeam tm).of key = (table.of key).filter (notTeamPair tm) := by
  simp only [OwnershipTable.removeTeam, OwnershipTable.of]
  exact ownersOfGo_map_filter table.entries key _

lemma countTeam_filter_self (ps : List (String × String)) (tm : String) :
    countTeam (ps.filter (notTeamPair tm)) tm = 0 := by
  induction ps with
  | nil => rfl
  | cons p rest ih =>
    rw [List.filter_cons]
    by_cases hc : p.1 = "TEAM" ∧ p.2 = tm
    · rw [if_neg (by simp [notTeamPair, hc])]
      exact ih
    · rw [if_pos (by simp [notTeamPair, hc])]
      simp only [countTeam]
      rw [if_neg hc, ih]

lemma countTeam_filter_other (ps : List (String × String)) (tm t1 : String) (h : t1 ≠ tm) :
    countTeam (ps.filter (notTeamPair tm)) t1 = countTeam ps t1 := by
  induction ps with
  | nil => rfl
  | cons p rest ih =>
    rw [List.filter_cons]
    by_cases hc : p.1 = "TEAM" ∧ p.2 = tm
    · rw [if_neg (by simp [notTeamPair, hc])]
      have hc1 : ¬(p.1 = "TEAM" ∧ p.2 = t1) := fun hh => h (hh.2.symm.trans hc.2)
      rw [ih]
      simp only [countTeam]
      rw [if_neg hc1]
      omega
    · rw [if_pos (by simp [notTeamPair, hc])]
      simp only [countTeam]
      rw [ih]

lemma tableBucket_congr (t1 t2 : OwnershipTable) (team : String) (js : List FailedJob)
    (h : ∀ nm : String, countTeam (t1.of nm) team = countTeam (t2.of nm) team) :
    tableBucket t1 team js = tableBucket t2 team js := by
  induction js with
  | nil => rfl
  | cons j rest ih => simp [tableBucket, h j.name, ih]

lemma bucket_jobs_of_mem_find (fjs : FailedJobs) (table : OwnershipTable)
    (team : String) (b : FailedJobs) (h : (team, b) ∈ find_job_owners fjs table) :
    b.jobs = e2eBucket team fjs.mandatory_infra_job_failures
      ++ tableBucket table team fjs.all_non_infra_failures := by
  rw [← lookupJobs_eq_of_mem _ _ _ (nodup_keys_find_job_owners fjs table) h,
    lookupJobs_find_job_owners]

/-! ## Lemmas about the registry audit -/

lemma check_owners_go_spec (sm jm : List (String × String)) :
    ∀ (paths : List CodeownersPath) (err : Bool) (msgs : List Diag),
      check_owners_go sm jm paths err msgs
        = (err || !(allDiags sm jm paths).isEmpty, msgs ++ allDiags sm jm paths) := by
  intro paths
  induction paths with
  | nil => intro err msgs; simp [check_owners_go, allDiags]
  | cons p rest ih =>
    intro err msgs
    rcases hq : p.owners with _ | ⟨⟨kind, team⟩, tl⟩
    · simp [check_owners_go, hq, allDiags, pathDiags, ih]
    · by_cases hk : kind = "TEAM"
      · subst hk
        by_cases hs : hasKey sm team.toLower
        · by_cases hj2 : hasKey jm team.toLower
          · simp [check_owners_go, hq, allDiags, pathDiags, ih, hs, hj2]
          · simp [check_owners_go, hq, allDiags, pathDiags, ih, hs, hj2]
        · by_cases hj2 : hasKey jm team.toLower
          · simp [check_owners_go, hq, allDiags, pathDiags, ih, hs, hj2]
          · simp [check_owners_go, hq, allDiags, pathDiags, ih, hs, hj2]
      · simp [check_owners_go, hq, hk, allDiags, pathDiags, ih]

lemma count_allDiags_slack (sm jm : List (String × String)) (t : String)
    (hmiss : hasKey sm t.toLower = false) :
    ∀ paths : List CodeownersPath,
      (allDiags sm jm paths).count (Diag.missingSlack t) = countPathsFirstTeam paths t := by
  intro paths
  induction paths with
  | nil => simp [allDiags, countPathsFirstTeam]
  | cons p rest ih =>
    simp only [allDiags, List.count_append, countPathsFirstTeam, ih]
    rcases hq : p.owners with _ | ⟨⟨kind, team⟩, tl⟩
    · simp [pathDiags, hq]
    · by_cases hk : kind = "TEAM"
      · subst hk
        by_cases ht : team = t
        · subst ht
          by_cases hj2 : hasKey jm team.toLower <;>
            simp [pathDiags, hq, hmiss, hj2, List.count_cons, List.count_append]
        · by_cases h1 : hasKey sm team.toLower <;> by_cases h2 : hasKey jm team.toLower <;>
            simp [pathDiags, hq, h1, h2, ht, List.count_cons, List.count_append]
      · simp [pathDiags, hq, hk]

lemma count_allDiags_jira (sm jm : List (String × String)) (t : String)
    (hmiss : hasKey jm t.toLower = false) :
    ∀ paths : List CodeownersPath,
      (allDiags sm jm paths).count (Diag.missingJira t) = countPathsFirstTeam paths t := by
  intro paths
  induction paths with
  | nil => simp [allDiags, countPathsFirstTeam]
  | cons p rest ih =>
    simp only [allDiags, List.count_append, countPathsFirstTeam, ih]
    rcases hq : p.owners with _ | ⟨⟨kind, team⟩, tl⟩
    · simp [pathDiags, hq]
    · by_cases hk : kind = "TEAM"
      · subst hk
        by_cases ht : team = t
        · subst ht
          by_cases h1 : hasKey sm team.toLower <;>
            simp [pathDiags, hq, hmiss, h1, List.count_cons, List.count_append]
        · by_cases h1 : hasKey sm team.toLower <;> by_cases h2 : hasKey jm team.toLower <;>
            simp [pathDiags, hq, h1, h2, ht, List.count_cons, List.count_append]
      · simp [pathDiags, hq, hk]

lemma mem_allDiags_of_mem_path (sm jm : List (String × String)) (d : Diag) :
    ∀ (paths : List CodeownersPath) (p : CodeownersPath), p ∈ paths →
      d ∈ pathDiags sm jm p → d ∈ allDiags sm jm paths := by
  intro paths
  induction paths with
  | nil => intro p hp; cases hp
  | cons q rest ih =>
    intro p hp hd
    rcases List.mem_cons.mp hp with hh | hh
    · subst hh
      exact List.mem_append_left _ hd
    · exact List.mem_append_right _ (ih p hh hd)

/-! ## Lemmas about the PR-link scan -/

lemma takeWhile_dropWhile_digits (l1 : List Char) (x : Char) (l2 : List Char)
    (h1 : ∀ c ∈ l1, c.isDigit = true) (hx : x.isDigit = false) :
    (l1 ++ x :: l2).takeWhile Char.isDigit = l1
      ∧ (l1 ++ x :: l2).dropWhile Char.isDigit = x :: l2 := by
  induction l1 with
  | nil =>
    constructor
    · simp [List.takeWhile_cons, hx]
    · simp [List.dropWhile_cons, hx]
  | cons c cs ih =>
    have hc := h1 c (List.mem_cons_self _ _)
    have ihh := ih (fun d hd => h1 d (List.mem_cons_of_mem _ hd))
    constructor
    · simp [List.takeWhile_cons, hc, ihh.1]
    · simp [List.dropWhile_cons, hc, ihh.2]

lemma rev_decomp (pre ds : String) :
    (pre ++ "(#" ++ ds ++ ")").data.reverse
      = ')' :: (ds.data.reverse ++ '#' :: '(' :: pre.data.reverse) := by
  have h1 : ("(#" : String).data = ['(', '#'] := rfl
  have h2 : (")" : String).data = [')'] := rfl
  simp [String.data_append, h1, h2, List.reverse_append]

lemma trailingPrId_complete (pre ds : String) (h : ∀ c ∈ ds.data, c.isDigit = true) :
    trailingPrId (pre ++ "(#" ++ ds ++ ")") = some ds := by
  have hTD := takeWhile_dropWhile_digits ds.data.reverse '#' ('(' :: pre.data.reverse)
    (fun c hc => h c (List.mem_reverse.mp hc)) (by decide)
  unfold trailingPrId
  rw [rev_decomp]
  simp [revParsePrNl, revParsePr, hTD.1, hTD.2]

lemma trailingPrId_complete_nl (pre ds : String) (h : ∀ c ∈ ds.data, c.isDigit = true) :
    trailingPrId (pre ++ "(#" ++ ds ++ ")" ++ "\n") = some ds := by
  have hTD := takeWhile_dropWhile_digits ds.data.reverse '#' ('(' :: pre.data.reverse)
    (fun c hc => h c (List.mem_reverse.mp hc)) (by decide)
  unfold trailingPrId
  have hrev : (pre ++ "(#" ++ ds ++ ")" ++ "\n").data.reverse
      = '\n' :: (pre ++ "(#" ++ ds ++ ")").data.reverse := by
    have h3 : ("\n" : String).data = ['\n'] := rfl
    simp [String.data_append, h3]
  rw [hrev, rev_decomp]
  simp [revParsePrNl, revParsePr, hTD.1, hTD.2]

lemma revParsePr_sound (l : List Char) (ds : String) (h : revParsePr l = some ds) :
    ∃ pre : String, l.reverse = (pre ++ "(#" ++ ds ++ ")").data
      ∧ ∀ c ∈ ds.data, c.isDigit = true := by
  rcases l with _ | ⟨c, rest⟩
  · simp [revParsePr] at h
  · simp only [revParsePr, List.head?_cons, List.tail_cons, Option.some.injEq] at h
    by_cases hc : c = ')'
    swap
    · rw [if_neg hc] at h
      cases h
    rw [if_pos hc] at h
    subst hc
    rcases hdrop : rest.dropWhile Char.isDigit with _ | ⟨c1, rest2⟩
    · rw [hdrop] at h
      simp at h
    rcases rest2 with _ | ⟨c2, rest3⟩
    · rw [hdrop] at h
      simp at h
    rw [hdrop] at h
    simp only [List.head?_cons, List.tail_cons, Option.some.injEq] at h
    by_cases hp : c1 = '#' ∧ c2 = '('
    swap
    · rw [if_neg hp] at h
      cases h
    rw [if_pos hp] at h
    rcases hp with ⟨rfl, rfl⟩
    have hds : ds = ⟨(rest.takeWhile Char.isDigit).reverse⟩ := (Option.some.inj h).symm
    refine ⟨⟨rest3.reverse⟩, ?_, ?_⟩
    · have hrest : rest = rest.takeWhile Char.isDigit ++ '#' :: '(' :: rest3 := by
        conv_lhs => rw [← List.takeWhile_append_dropWhile (p := Char.isDigit) (l := rest)]
        rw [hdrop]
      rw [List.reverse_cons, hrest, hds]
      have h1 : ("(#" : String).data = ['(', '#'] := rfl
      have h2 : (")" : String).data = [')'] := rfl
      simp [String.data_append, h1, h2, List.reverse_append]
    · intro ch hch
      rw [hds] at hch
      have : ch ∈ rest.takeWhile Char.isDigit := List.mem_reverse.mp hch
      exact List.mem_takeWhile_imp this

lemma trailingPrId_sound (title ds : String) (h : trailingPrId title = some ds) :
    ∃ pre : String,
      (title = pre ++ "(#" ++ ds ++ ")" ∨ title = pre ++ "(#" ++ ds ++ ")" ++ "\n")
        ∧ ∀ c ∈ ds.data, c.isDigit = true := by
  unfold trailingPrId at h
  rcases hl : title.data.reverse with _ | ⟨c, rest⟩
  · rw [hl] at h
    simp [revParsePrNl, revParsePr] at h
  · rw [hl] at h
    by_cases hnl : c = '\n'
    · subst hnl
      simp only [revParsePrNl, List.head?_cons, List.tail_cons, if_true] at h
      obtain ⟨pre, hrest, hdig⟩ := revParsePr_sound rest ds h
      refine ⟨pre, Or.inr ?_, hdig⟩
      apply String.ext
      have h1 : title.data = rest.reverse ++ ['\n'] := by
        have hgg := congrArg List.reverse hl
        simpa using hgg
      have h3 : ("\n" : String).data = ['\n'] := rfl
      rw [h1, hrest]
      simp [String.data_append, h3]
    · simp only [revParsePrNl, List.head?_cons, List.tail_cons] at h
      rw [if_neg (by simpa using hnl)] at h
      obtain ⟨pre, hrest, hdig⟩ := revParsePr_sound (c :: rest) ds h
      refine ⟨pre, Or.inl ?_, hdig⟩
      apply String.ext
      have h1 : title.data = (c :: rest).reverse := by
        have hgg := congrArg List.reverse hl
        simpa using hgg
      rw [h1, hrest]

/-! ## Lemmas about the config loader -/

lemma lookupAssoc_insert_self (acc : List (String × String)) (k v : String) :
    lookupAssoc (assocInsert acc k v) k = some v := by
  induction acc with
  | nil => simp [assocInsert, lookupAssoc]
  | cons e rest ih =>
    rcases e with ⟨k0, v0⟩
    by_cases h : k0 = k
    · subst h
      simp [assocInsert, lookupAssoc]
    · simp [assocInsert, lookupAssoc, h, ih]

lemma lookupAssoc_insert_ne (acc : List (String × String)) (k0 k v : String) (h : k0 ≠ k) :
    lookupAssoc (assocInsert acc k0 v) k = lookupAssoc acc k := by
  induction acc with
  | nil => simp [assocInsert, lookupAssoc, h]
  | cons e rest ih =>
    rcases e with ⟨k1, v1⟩
    by_cases h1 : k1 = k0
    · subst h1
      simp [assocInsert, lookupAssoc, h]
    · by_cases h2 : k1 = k
      · simp [assocInsert, lookupAssoc, h1, h2, Ne.symm h]
      · simp [assocInsert, lookupAssoc, h1, h2, ih]

lemma lav_go_error (fn ph dv : String) :
    ∀ (items : List (YamlValue × YamlValue)) (acc : List (String × String))
      (k v : YamlValue), (k, v) ∈ items → (k.isStr && v.isStr) = false →
      load_and_validate_go fn ph dv items acc
        = .error ("File " ++ fn ++ " contains a non-string key or value.") := by
  intro items
  induction items with
  | nil => intro acc k v hm; cases hm
  | cons e rest ih =>
    intro acc k v hm hb
    rcases e with ⟨k0, v0⟩
    rcases k0 with ks | _
    · rcases v0 with vs | _
      · simp only [load_and_validate_go]
        rcases List.mem_cons.mp hm with hh | hh
        · injection hh with h1 h2
          subst h1
          subst h2
          simp [YamlValue.isStr] at hb
        · exact ih _ k v hh hb
      · simp [load_and_validate_go]
    · simp [load_and_validate_go]

lemma lav_go_untouched (fn ph dv : String) :
    ∀ (items : List (YamlValue × YamlValue)) (acc : List (String × String)) (k : String),
      (∀ e ∈ items, (e.1.isStr && e.2.isStr) = true) →
      (∀ e ∈ items, e.1 ≠ YamlValue.str k) →
      ∃ m, load_and_validate_go fn ph dv items acc = .ok m
        ∧ lookupAssoc m k = lookupAssoc acc k := by
  intro items
  induction items with
  | nil => intro acc k _ _; exact ⟨acc, rfl, rfl⟩
  | cons e rest ih =>
    intro acc k hg hk
    rcases e with ⟨k0, v0⟩
    rcases k0 with ks | _
    · rcases v0 with vs | _
      · have hne : ks ≠ k := by
          intro hh
          exact hk (YamlValue.str ks, YamlValue.str vs) (List.mem_cons_self _ _) (by rw [hh])
        obtain ⟨m, hgo, hlk⟩ := ih (assocInsert acc ks (if vs = ph then dv else vs)) k
          (fun e he => hg e (List.mem_cons_of_mem _ he))
          (fun e he => hk e (List.mem_cons_of_mem _ he))
        exact ⟨m, by simpa [load_and_validate_go] using hgo,
          hlk.trans (lookupAssoc_insert_ne acc ks k _ hne)⟩
      · have := hg (YamlValue.str ks, YamlValue.other) (List.mem_cons_self _ _)
        simp [YamlValue.isStr] at this
    · have := hg (YamlValue.other, v0) (List.mem_cons_self _ _)
      simp [YamlValue.isStr] at this

lemma lav_go_placeholder (fn ph dv : String) :
    ∀ (items : List (YamlValue × YamlValue)) (acc : List (String × String)) (k : String),
      (∀ e ∈ items, (e.1.isStr && e.2.isStr) = true) →
      (items.map Prod.fst).Nodup →
      (YamlValue.str k, YamlValue.str ph) ∈ items →
      ∃ m, load_and_validate_go fn ph dv items acc = .ok m ∧ lookupAssoc m k = some dv := by
  intro items
  induction items with
  | nil => intro acc k _ _ hm; cases hm
  | cons e rest ih =>
    intro acc k hg hnd hm
    rcases e with ⟨k0, v0⟩
    rw [List.map_cons, List.nodup_cons] at hnd
    rcases hnd with ⟨hnd1, hnd2⟩
    rcases k0 with ks | _
    · rcases v0 with vs | _
      · rcases List.mem_cons.mp hm with hh | hh
        · injection hh with h1 h2
          injection h1 with h1
          injection h2 with h2
          subst h1
          subst h2
          have hk : ∀ e ∈ rest, e.1 ≠ YamlValue.str k := by
            intro e he hne
            exact hnd1 (List.mem_map.mpr ⟨e, he, hne⟩)
          obtain ⟨m, hgo, hlk⟩ := lav_go_untouched fn ph dv rest
            (assocInsert acc k (if ph = ph then dv else ph)) k
            (fun e he => hg e (List.mem_cons_of_mem _ he)) hk
          refine ⟨m, by simpa [load_and_validate_go] using hgo, ?_⟩
          rw [hlk, if_pos rfl, lookupAssoc_insert_self]
        · obtain ⟨m, hgo, hlk⟩ := ih (assocInsert acc ks (if vs = ph then dv else vs)) k
            (fun e he => hg e (List.mem_cons_of_mem _ he)) hnd2 hh
          exact ⟨m, by simpa [load_and_validate_go] using hgo, hlk⟩
      · have := hg (YamlValue.str ks, YamlValue.other) (List.mem_cons_self _ _)
        simp [YamlValue.isStr] at this
    · have := hg (YamlValue.other, v0) (List.mem_cons_self _ _)
      simp [YamlValue.isStr] at this

/-! ## The claims -/

/-- C2 (amended): a `fail` event followed later by a `pass` event for the
identical (package, name) pair, with no further `fail` event for that pair
after the `pass`, leaves the pair absent from the final failed-test
mapping; a `pass` event whose pair is not currently recorded as failed
leaves the mapping unchanged; and the stream
`[{fail,pkgA,T1},{fail,pkgA,T2},{pass,pkgA,T1}]` yields exactly the failed
set containing only `(pkgA,T2)`. -/
theorem claim_C2
    : (∀ (l1 l2 : List JsonLine) (p n : String) (m : FailedTestsDict),
        (∀ l ∈ l2, isFailFor p n l = false) →
        get_failed_tests_dict (l1 ++ JsonLine.event p n "pass" :: l2) = .ok m →
        dictContains m (p, n) = false)
      ∧ (∀ (d : FailedTestsDict) (p n : String), dictContains d (p, n) = false →
        processTestLine d (JsonLine.event p n "pass") = .ok d)
      ∧ get_failed_tests_dict
          [JsonLine.event "pkgA" "T1" "fail", JsonLine.event "pkgA" "T2" "fail",
            JsonLine.event "pkgA" "T1" "pass"]
          = .ok [(("pkgA", "T2"), ⟨"pkgA", "T2"⟩)] := by
  refine ⟨?_, processTestLine_pass_noop, by rfl⟩
  intro l1 l2 p n m hnf hok
  unfold get_failed_tests_dict at hok
  rcases h1 : get_failed_tests_go l1 [] with e | d1
  · rw [go_append, h1] at hok
    exact absurd hok (by simp)
  · rw [go_append_ok l1 _ [] d1 h1] at hok
    obtain ⟨d2, hd2, habs⟩ := processTestLine_pass d1 p n
    rw [go_cons_ok _ _ _ _ hd2] at hok
    exact absent_preserved p n l2 d2 m hnf habs hok

/-- C2 counterexample to the claim as stated: in the stream
`[{fail,pkgA,T1},{pass,pkgA,T1},{fail,pkgA,T1}]` the `fail` at index 0 is
followed later by a `pass` for the identical pair, yet `(pkgA,T1)` is
present in the final failed-test mapping, because a further `fail` follows
the `pass`. -/
theorem claim_C2_counterexample
    : get_failed_tests_dict
        [JsonLine.event "pkgA" "T1" "fail", JsonLine.event "pkgA" "T1" "pass",
          JsonLine.event "pkgA" "T1" "fail"]
        = .ok [(("pkgA", "T1"), ⟨"pkgA", "T1"⟩)]
      ∧ dictContains [(("pkgA", "T1"), (⟨"pkgA", "T1"⟩ : Test))] ("pkgA", "T1") = true :=
  ⟨by rfl, by rfl⟩

/-- C2 witness: the amended absence statement applied to the concrete
stream `[{fail,pkgA,T1},{pass,pkgA,T1},{noTest}]`. -/
theorem claim_C2_witness : dictContains [] ("pkgA", "T1") = false :=
  claim_C2.1 [JsonLine.event "pkgA" "T1" "fail"] [JsonLine.noTest] "pkgA" "T1" []
    (by decide) (by rfl)

/-- C3 (amended): a line that is not well-formed JSON aborts the parse of
the whole stream with a `JSONDecodeError` instead of being skipped; the
per-line fail-soft behaviour applies only to well-formed JSON lines that
carry no `Test` field, which are skipped without affecting the rest of the
parse. -/
theorem claim_C3
    : (∀ lines : List JsonLine, JsonLine.malformed ∈ lines →
        get_failed_tests_dict lines = .error "JSONDecodeError")
      ∧ (∀ d : FailedTestsDict, processTestLine d JsonLine.noTest = .ok d) :=
  ⟨fun lines hm => go_error_of_malformed lines hm [], fun _ => rfl⟩

/-- C3 counterexample to the claim as stated: on the stream
`[{fail,pkgA,T1}, malformed, {fail,pkgA,T2}]` the parser aborts with an
error, whereas on the same stream with the malformed line removed it
returns the two failed tests; the claim demanded that both produce the
same mapping. -/
theorem claim_C3_counterexample
    : get_failed_tests_dict
        [JsonLine.event "pkgA" "T1" "fail", JsonLine.malformed,
          JsonLine.event "pkgA" "T2" "fail"]
        = .error "JSONDecodeError"
      ∧ get_failed_tests_dict
          [JsonLine.event "pkgA" "T1" "fail", JsonLine.event "pkgA" "T2" "fail"]
          = .ok [(("pkgA", "T1"), ⟨"pkgA", "T1"⟩), (("pkgA", "T2"), ⟨"pkgA", "T2"⟩)] :=
  ⟨by rfl, by rfl⟩

/-- C3 witness: the amended abort statement applied to a concrete stream
with a malformed second line. -/
theorem claim_C3_witness
    : get_failed_tests_dict [JsonLine.event "pkgA" "T1" "fail", JsonLine.malformed]
        = .error "JSONDecodeError" :=
  claim_C3.1 [JsonLine.event "pkgA" "T1" "fail", JsonLine.malformed] (by decide)

/-- C8: for every test-result stream that parses, no (package, name) pair
whose test name contains the subtest delimiter `/` appears in the final
failed-test mapping. -/
theorem claim_C8 (lines : List JsonLine) (m : FailedTestsDict) (p n : String)
    (hok : get_failed_tests_dict lines = .ok m)
    (hmem : dictContains m (p, n) = true) : n.data.contains '/' = false := by
  have h0 : NoSlashKeys [] := fun k hk => by simp [dictContains] at hk
  exact noSlash_go lines [] m h0 hok (p, n) hmem

/-- C8 witness: a stream failing `TestX` leaves a mapping whose recorded
name `TestX` is slash-free. -/
theorem claim_C8_witness : ("TestX" : String).data.contains '/' = false :=
  claim_C8 [JsonLine.event "pkgA" "TestX" "fail"]
    [(("pkgA", "TestX"), ⟨"pkgA", "TestX"⟩)] "pkgA" "TestX" (by rfl) (by rfl)

/-- C1: for every collection of failed jobs, every mandatory job whose
failure reason is e2e-infrastructure-failure is added by `find_job_owners`
to the bucket of the fixed fallback owner `@DataDog/agent-e2e-testing`,
for every Ownership Table (in particular independently of whether the
table has an entry for the job's name). -/
theorem claim_C1 (fjs : FailedJobs) (table : OwnershipTable) (j : FailedJob)
    (hj : j ∈ fjs.jobs) (hm : j.mandatory = true)
    (hr : j.failure_reason = .E2E_INFRA_FAILURE) :
    j ∈ lookupJobs (find_job_owners fjs table) "@DataDog/agent-e2e-testing" := by
  rw [lookupJobs_find_job_owners]
  refine List.mem_append_left _ (mem_e2eBucket_of _ _ ?_ hr)
  rw [FailedJobs.mandatory_infra_job_failures, List.mem_filter]
  exact ⟨hj, by simp [hm, hr, FailedJobReason.isInfra]⟩

/-- C1 witness: a mandatory e2e-infra job lands in the fallback bucket
even with an empty Ownership Table. -/
theorem claim_C1_witness :
    (⟨"e2e-job", true, .E2E_INFRA_FAILURE⟩ : FailedJob)
      ∈ lookupJobs
          (find_job_owners ⟨[⟨"e2e-job", true, .E2E_INFRA_FAILURE⟩]⟩ ⟨[]⟩)
          "@DataDog/agent-e2e-testing" :=
  claim_C1 ⟨[⟨"e2e-job", true, .E2E_INFRA_FAILURE⟩]⟩ ⟨[]⟩
    ⟨"e2e-job", true, .E2E_INFRA_FAILURE⟩ (by decide) rfl rfl

/-- C4: `find_job_owners` gives a bucket only to the fixed fallback owner
or to a TEAM owner of some failed job's name (so USERNAME owners are never
given a bucket); a non-infrastructure failed job found in a team's bucket
always has that team among the TEAM owners of its name; and a
non-infrastructure job whose name resolves to no TEAM owner appears in no
bucket (it is silently dropped, not an error). -/
theorem claim_C4
    : (∀ (fjs : FailedJobs) (table : OwnershipTable) (e : String × FailedJobs),
        e ∈ find_job_owners fjs table →
        e.1 = "@DataDog/agent-e2e-testing"
          ∨ ∃ j ∈ fjs.all_non_infra_failures, ("TEAM", e.1) ∈ table.of j.name)
      ∧ (∀ (fjs : FailedJobs) (table : OwnershipTable) (team : String) (b : FailedJobs)
          (j : FailedJob), (team, b) ∈ find_job_owners fjs table → j ∈ b.jobs →
          j.failure_reason.isInfra = false → ("TEAM", team) ∈ table.of j.name)
      ∧ (∀ (fjs : FailedJobs) (table : OwnershipTable) (j : FailedJob),
          j.failure_reason.isInfra = false →
          (∀ o : String, ("TEAM", o) ∉ table.of j.name) →
          ∀ (team : String) (b : FailedJobs),
            (team, b) ∈ find_job_owners fjs table → j ∉ b.jobs) := by
  have hb : ∀ (fjs : FailedJobs) (table : OwnershipTable) (team : String) (b : FailedJobs)
      (j : FailedJob), (team, b) ∈ find_job_owners fjs table → j ∈ b.jobs →
      j.failure_reason.isInfra = false → ("TEAM", team) ∈ table.of j.name := by
    intro fjs table team b j hmem hjb hni
    rw [bucket_jobs_of_mem_find fjs table team b hmem] at hjb
    rcases List.mem_append.mp hjb with hx | hx
    · have he := (mem_e2eBucket _ _ _ hx).1
      rw [he] at hni
      simp [FailedJobReason.isInfra] at hni
    · exact (mem_tableBucket _ _ _ _ hx).2
  refine ⟨?_, hb, ?_⟩
  · intro fjs table e hmem
    simp only [find_job_owners] at hmem
    rcases key_tableFold table fjs.all_non_infra_failures _ e hmem with h1 | h2
    · rcases h1 with ⟨b, hbmem⟩
      rcases key_e2eFold fjs.mandatory_infra_job_failures [] (e.1, b) hbmem
        with ⟨b2, hb2⟩ | hfb
      · cases hb2
      · exact Or.inl hfb
    · exact Or.inr h2
  · intro fjs table j hni hno team b hmem hjb
    exact hno team (hb fjs table team b j hmem hjb hni)

/-- C4 witness: the bucket-provenance statement applied to the bucket that
routing a single team-owned non-infra job produces. -/
theorem claim_C4_witness :
    ("@DataDog/t1" : String) = "@DataDog/agent-e2e-testing"
      ∨ ∃ j ∈ FailedJobs.all_non_infra_failures ⟨[⟨"jobB", false, .JOB_FAILURE⟩]⟩,
          ("TEAM", "@DataDog/t1")
            ∈ OwnershipTable.of ⟨[("jobB", [("TEAM", "@DataDog/t1")])]⟩ j.name :=
  claim_C4.1 ⟨[⟨"jobB", false, .JOB_FAILURE⟩]⟩ ⟨[("jobB", [("TEAM", "@DataDog/t1")])]⟩
    ("@DataDog/t1", ⟨[⟨"jobB", false, .JOB_FAILURE⟩]⟩) (by decide)

/-- C6 (amended): for every non-infrastructure failed job whose name
resolves to two distinct TEAM owners, `find_job_owners` puts the job in
both teams' buckets; and with one of those teams removed from the
Ownership Table the job is absent from the removed team's bucket while the
other team's bucket is unchanged. -/
theorem claim_C6 (fjs : FailedJobs) (table : OwnershipTable) (j : FailedJob)
    (t1 t2 : String) (hj : j ∈ fjs.jobs) (hni : j.failure_reason.isInfra = false)
    (h1 : ("TEAM", t1) ∈ table.of j.name) (h2 : ("TEAM", t2) ∈ table.of j.name)
    (hne : t1 ≠ t2) :
    j ∈ lookupJobs (find_job_owners fjs table) t1
      ∧ j ∈ lookupJobs (find_job_owners fjs table) t2
      ∧ j ∉ lookupJobs (find_job_owners fjs (table.removeTeam t2)) t2
      ∧ lookupJobs (find_job_owners fjs (table.removeTeam t2)) t1
          = lookupJobs (find_job_owners fjs table) t1 := by
  have hjn : j ∈ fjs.all_non_infra_failures := by
    rw [FailedJobs.all_non_infra_failures, List.mem_filter]
    exact ⟨hj, by simp [hni]⟩
  refine ⟨?_, ?_, ?_, ?_⟩
  · rw [lookupJobs_find_job_owners]
    exact List.mem_append_right _ (mem_tableBucket_of _ _ _ _ hjn h1)
  · rw [lookupJobs_find_job_owners]
    exact List.mem_append_right _ (mem_tableBucket_of _ _ _ _ hjn h2)
  · rw [lookupJobs_find_job_owners]
    intro hmem
    rcases List.mem_append.mp hmem with hh | hh
    · have he := (mem_e2eBucket _ _ _ hh).1
      rw [he] at hni
      simp [FailedJobReason.isInfra] at hni
    · have hmemof := (mem_tableBucket _ _ _ _ hh).2
      rw [of_removeTeam] at hmemof
      have hpred := (List.mem_filter.mp hmemof).2
      simp [notTeamPair] at hpred
  · rw [lookupJobs_find_job_owners, lookupJobs_find_job_owners]
    have htb : tableBucket (table.removeTeam t2) t1 fjs.all_non_infra_failures
        = tableBucket table t1 fjs.all_non_infra_failures := by
      apply tableBucket_congr
      intro nm
      rw [of_removeTeam]
      exact countTeam_filter_other _ _ _ hne
    rw [htb]

/-- C6 counterexample to the claim as stated: an e2e-infrastructure
failed job whose name resolves to the two TEAM owners `@DataDog/t1` and
`@DataDog/t2` is routed only to the fallback owner, so it appears in
neither team's bucket, contradicting the unrestricted "every failed job"
quantification. -/
theorem claim_C6_counterexample
    : OwnershipTable.of ⟨[("jobA", [("TEAM", "@DataDog/t1"), ("TEAM", "@DataDog/t2")])]⟩ "jobA"
        = [("TEAM", "@DataDog/t1"), ("TEAM", "@DataDog/t2")]
      ∧ lookupJobs
          (find_job_owners ⟨[⟨"jobA", true, .E2E_INFRA_FAILURE⟩]⟩
            ⟨[("jobA", [("TEAM", "@DataDog/t1"), ("TEAM", "@DataDog/t2")])]⟩)
          "@DataDog/t1" = []
      ∧ lookupJobs
          (find_job_owners ⟨[⟨"jobA", true, .E2E_INFRA_FAILURE⟩]⟩
            ⟨[("jobA", [("TEAM", "@DataDog/t1"), ("TEAM", "@DataDog/t2")])]⟩)
          "@DataDog/t2" = [] :=
  ⟨by rfl, by rfl, by rfl⟩

/-- C6 witness: the amended statement applied to a non-infra job owned by
`@DataDog/t1` and `@DataDog/t2`. -/
theorem claim_C6_witness :
    (⟨"jobB", false, .JOB_FAILURE⟩ : FailedJob)
      ∈ lookupJobs
          (find_job_owners ⟨[⟨"jobB", false, .JOB_FAILURE⟩]⟩
            ⟨[("jobB", [("TEAM", "@DataDog/t1"), ("TEAM", "@DataDog/t2")])]⟩)
          "@DataDog/t1"
    ∧ (⟨"jobB", false, .JOB_FAILURE⟩ : FailedJob)
      ∈ lookupJobs
          (find_job_owners ⟨[⟨"jobB", false, .JOB_FAILURE⟩]⟩
            ⟨[("jobB", [("TEAM", "@DataDog/t1"), ("TEAM", "@DataDog/t2")])]⟩)
          "@DataDog/t2"
    ∧ (⟨"jobB", false, .JOB_FAILURE⟩ : FailedJob)
      ∉ lookupJobs
          (find_job_owners ⟨[⟨"jobB", false, .JOB_FAILURE⟩]⟩
            ((OwnershipTable.removeTeam
              ⟨[("jobB", [("TEAM", "@DataDog/t1"), ("TEAM", "@DataDog/t2")])]⟩ "@DataDog/t2")))
          "@DataDog/t2"
    ∧ lookupJobs
          (find_job_owners ⟨[⟨"jobB", false, .JOB_FAILURE⟩]⟩
            ((OwnershipTable.removeTeam
              ⟨[("jobB", [("TEAM", "@DataDog/t1"), ("TEAM", "@DataDog/t2")])]⟩ "@DataDog/t2")))
          "@DataDog/t1"
        = lookupJobs
            (find_job_owners ⟨[⟨"jobB", false, .JOB_FAILURE⟩]⟩
              ⟨[("jobB", [("TEAM", "@DataDog/t1"), ("TEAM", "@DataDog/t2")])]⟩)
            "@DataDog/t1" :=
  claim_C6 ⟨[⟨"jobB", false, .JOB_FAILURE⟩]⟩
    ⟨[("jobB", [("TEAM", "@DataDog/t1"), ("TEAM", "@DataDog/t2")])]⟩
    ⟨"jobB", false, .JOB_FAILURE⟩ "@DataDog/t1" "@DataDog/t2"
    (by decide) rfl (by decide) (by decide) (by decide)

/-- C5 (amended): the registry audit reports a first-listed TEAM owner
missing from a map once per path it first-owns and per missing map (so a
team absent from both maps and first-owning one path yields two
diagnostics, and first-owning k paths yields 2k, not exactly one); a team
present in only one of the two maps is still reported as having a gap; and
the audit always returns a boolean gaps signal together with all collected
diagnostics instead of halting on the first gap. -/
theorem claim_C5
    : (∀ (paths : List CodeownersPath) (sm jm : List (String × String)),
        check_for_missing_owners_slack_and_jira paths sm jm
          = (!(allDiags sm jm paths).isEmpty, allDiags sm jm paths))
      ∧ (∀ (paths : List CodeownersPath) (sm jm : List (String × String)) (t : String),
          hasKey sm t.toLower = false →
          ((check_for_missing_owners_slack_and_jira paths sm jm).2).count (Diag.missingSlack t)
            = countPathsFirstTeam paths t)
      ∧ (∀ (paths : List CodeownersPath) (sm jm : List (String × String)) (t : String),
          hasKey jm t.toLower = false →
          ((check_for_missing_owners_slack_and_jira paths sm jm).2).count (Diag.missingJira t)
            = countPathsFirstTeam paths t)
      ∧ (∀ (paths : List CodeownersPath) (sm jm : List (String × String))
          (p : CodeownersPath) (t : String) (tl : List (String × String)),
          p ∈ paths → p.owners = ("TEAM", t) :: tl →
          hasKey sm t.toLower = false ∨ hasKey jm t.toLower = false →
          (check_for_missing_owners_slack_and_jira paths sm jm).1 = true) := by
  have hchar : ∀ (paths : List CodeownersPath) (sm jm : List (String × String)),
      check_for_missing_owners_slack_and_jira paths sm jm
        = (!(allDiags sm jm paths).isEmpty, allDiags sm jm paths) := by
    intro paths sm jm
    unfold check_for_missing_owners_slack_and_jira
    rw [check_owners_go_spec]
    simp
  refine ⟨hchar, ?_, ?_, ?_⟩
  · intro paths sm jm t hm
    rw [hchar]
    exact count_allDiags_slack sm jm t hm paths
  · intro paths sm jm t hm
    rw [hchar]
    exact count_allDiags_jira sm jm t hm paths
  · intro paths sm jm p t tl hp hq hmiss
    rw [hchar]
    have hd : ∃ d, d ∈ allDiags sm jm paths := by
      rcases hmiss with hm | hm
      · exact ⟨Diag.missingSlack t,
          mem_allDiags_of_mem_path sm jm _ paths p hp (by simp [pathDiags, hq, hm])⟩
      · exact ⟨Diag.missingJira t,
          mem_allDiags_of_mem_path sm jm _ paths p hp (by simp [pathDiags, hq, hm])⟩
    rcases hd with ⟨d, hd⟩
    rcases hall : allDiags sm jm paths with _ | ⟨x, xs⟩
    · rw [hall] at hd
      cases hd
    · simp [hall]

/-- C5 counterexample to the claim as stated: a team that first-owns two
paths and is absent from both maps is reported four times (twice per map),
not exactly once. -/
theorem claim_C5_counterexample
    : (check_for_missing_owners_slack_and_jira
          [⟨"a.py", [("TEAM", "@DataDog/teamA")]⟩, ⟨"b.py", [("TEAM", "@DataDog/teamA")]⟩]
          [] []).2
        = [Diag.missingSlack "@DataDog/teamA", Diag.missingJira "@DataDog/teamA",
            Diag.missingSlack "@DataDog/teamA", Diag.missingJira "@DataDog/teamA"]
      ∧ ((check_for_missing_owners_slack_and_jira
          [⟨"a.py", [("TEAM", "@DataDog/teamA")]⟩, ⟨"b.py", [("TEAM", "@DataDog/teamA")]⟩]
          [] []).2).count (Diag.missingSlack "@DataDog/teamA") = 2 :=
  ⟨by rfl, by rfl⟩

/-- C5 witness: a team present in the issue-tracker map but absent from
the chat-channel map, first-owning one path, gets exactly one missing-slack
diagnostic. -/
theorem claim_C5_witness :
    ((check_for_missing_owners_slack_and_jira
        [⟨"a.py", [("TEAM", "@DataDog/teamA")]⟩] [] [("@datadog/teama", "PROJ")]).2).count
        (Diag.missingSlack "@DataDog/teamA")
      = countPathsFirstTeam [⟨"a.py", [("TEAM", "@DataDog/teamA")]⟩] "@DataDog/teamA" :=
  claim_C5.2.1 [⟨"a.py", [("TEAM", "@DataDog/teamA")]⟩] [] [("@datadog/teama", "PROJ")]
    "@DataDog/teamA" (by rfl)

/-- C7: if the commit title matches the trailing pattern `... (#<digits>)`
(at the end of the title, or — since `$` in a Python regex also matches
just before one final newline — followed by a single trailing newline),
`get_pr_from_commit` returns the digits and the URL
`https://github.com/DataDog/<project>/pull/<digits>`, and message
composition replaces the literal substring `#<digits>` in the title with
that text wrapped as a hyperlink to the URL; a title with no such trailing
pattern is left entirely unmodified (and no error is possible: the scan
totals to `none`); in particular `"Fix bug (#4321)"` with project
`"datadog-agent"` yields the URL ending in `/datadog-agent/pull/4321`. -/
theorem claim_C7
    : (∀ (pre ds proj : String), (∀ c ∈ ds.data, c.isDigit = true) →
        get_pr_from_commit (pre ++ "(#" ++ ds ++ ")") proj
          = some (ds, DATADOG_AGENT_GITHUB_ORG_URL ++ "/" ++ proj ++ "/pull/" ++ ds)
        ∧ enhanced_commit_title (pre ++ "(#" ++ ds ++ ")") proj
          = (pre ++ "(#" ++ ds ++ ")").replace ("#" ++ ds)
              ("<" ++ (DATADOG_AGENT_GITHUB_ORG_URL ++ "/" ++ proj ++ "/pull/" ++ ds)
                ++ "|#" ++ ds ++ ">"))
      ∧ (∀ (pre ds proj : String), (∀ c ∈ ds.data, c.isDigit = true) →
        get_pr_from_commit (pre ++ "(#" ++ ds ++ ")" ++ "\n") proj
          = some (ds, DATADOG_AGENT_GITHUB_ORG_URL ++ "/" ++ proj ++ "/pull/" ++ ds)
        ∧ enhanced_commit_title (pre ++ "(#" ++ ds ++ ")" ++ "\n") proj
          = (pre ++ "(#" ++ ds ++ ")" ++ "\n").replace ("#" ++ ds)
              ("<" ++ (DATADOG_AGENT_GITHUB_ORG_URL ++ "/" ++ proj ++ "/pull/" ++ ds)
                ++ "|#" ++ ds ++ ">"))
      ∧ (∀ (title proj : String),
          (¬∃ pre ds : String, (∀ c ∈ ds.data, c.isDigit = true)
            ∧ (title = pre ++ "(#" ++ ds ++ ")"
              ∨ title = pre ++ "(#" ++ ds ++ ")" ++ "\n")) →
          get_pr_from_commit title proj = none ∧ enhanced_commit_title title proj = title)
      ∧ get_pr_from_commit "Fix bug (#4321)" "datadog-agent"
          = some ("4321", "https://github.com/DataDog/datadog-agent/pull/4321") := by
  refine ⟨?_, ?_, ?_, by rfl⟩
  · intro pre ds proj h
    have hpid := trailingPrId_complete pre ds h
    constructor
    · simp [get_pr_from_commit, hpid]
    · have hpid' := hpid
      simp only [String.append_assoc] at hpid'
      simp [enhanced_commit_title, get_pr_from_commit, hpid', String.append_assoc]
  · intro pre ds proj h
    have hpid := trailingPrId_complete_nl pre ds h
    constructor
    · simp [get_pr_from_commit, hpid]
    · have hpid' := hpid
      simp [String.append_assoc] at hpid'
      simp [enhanced_commit_title, get_pr_from_commit, hpid', String.append_assoc]
  · intro title proj hno
    rcases hpars : trailingPrId title with _ | ds
    · constructor
      · simp [get_pr_from_commit, hpars]
      · simp [enhanced_commit_title, get_pr_from_commit, hpars]
    · rcases trailingPrId_sound title ds hpars with ⟨pre, heq, hdig⟩
      exact absurd ⟨pre, ds, hdig, heq⟩ hno

/-- C7 witness: the match statement applied to `"Fix bug (#4321)"`, the
newline-match statement applied to the same title with a trailing newline,
and the no-match statement applied to `"Fix bug"`. -/
theorem claim_C7_witness :
    (get_pr_from_commit ("Fix bug " ++ "(#" ++ "4321" ++ ")") "datadog-agent"
        = some ("4321",
            DATADOG_AGENT_GITHUB_ORG_URL ++ "/" ++ "datadog-agent" ++ "/pull/" ++ "4321")
      ∧ enhanced_commit_title ("Fix bug " ++ "(#" ++ "4321" ++ ")") "datadog-agent"
        = ("Fix bug " ++ "(#" ++ "4321" ++ ")").replace ("#" ++ "4321")
            ("<" ++ (DATADOG_AGENT_GITHUB_ORG_URL ++ "/" ++ "datadog-agent" ++ "/pull/"
              ++ "4321") ++ "|#" ++ "4321" ++ ">"))
    ∧ (get_pr_from_commit ("Fix bug " ++ "(#" ++ "4321" ++ ")" ++ "\n") "datadog-agent"
        = some ("4321",
            DATADOG_AGENT_GITHUB_ORG_URL ++ "/" ++ "datadog-agent" ++ "/pull/" ++ "4321")
      ∧ enhanced_commit_title ("Fix bug " ++ "(#" ++ "4321" ++ ")" ++ "\n") "datadog-agent"
        = ("Fix bug " ++ "(#" ++ "4321" ++ ")" ++ "\n").replace ("#" ++ "4321")
            ("<" ++ (DATADOG_AGENT_GITHUB_ORG_URL ++ "/" ++ "datadog-agent" ++ "/pull/"
              ++ "4321") ++ "|#" ++ "4321" ++ ">"))
    ∧ (get_pr_from_commit "Fix bug" "datadog-agent" = none
      ∧ enhanced_commit_title "Fix bug" "datadog-agent" = "Fix bug") :=
  ⟨claim_C7.1 "Fix bug " "4321" "datadog-agent" (by decide),
    claim_C7.2.1 "Fix bug " "4321" "datadog-agent" (by decide),
    claim_C7.2.2.1 "Fix bug" "datadog-agent" (by
      rintro ⟨pre, ds, hdig, heq | heq⟩
      · have hrev : ("Fix bug" : String).data.reverse
            = ')' :: (ds.data.reverse ++ '#' :: '(' :: pre.data.reverse) := by
          rw [heq, rev_decomp]
        have hL : ("Fix bug" : String).data.reverse.head? = some 'g' := by rfl
        rw [hrev] at hL
        simp at hL
      · have hrev : ("Fix bug" : String).data.reverse.head? = some '\n' := by
          rw [heq]
          have h3 : ("\n" : String).data = ['\n'] := rfl
          simp [String.data_append, h3]
        have hL : ("Fix bug" : String).data.reverse.head? = some 'g' := by rfl
        rw [hL] at hrev
        simp at hrev)⟩

/-- C10: the PR-number pattern accepts an empty digit sequence: for every
commit title ending in the literal substring `(#)`, `get_pr_from_commit`
returns a non-`none` result whose PR id is the empty string and whose URL
ends in `/pull/`, and message composition replaces every occurrence of the
single character `#` in the title with the link wrapper, rather than
treating the title as having no PR reference. -/
theorem claim_C10 (t proj : String) :
    get_pr_from_commit (t ++ "(#)") proj
      = some ("", DATADOG_AGENT_GITHUB_ORG_URL ++ "/" ++ proj ++ "/pull/")
    ∧ enhanced_commit_title (t ++ "(#)") proj
      = (t ++ "(#)").replace "#"
          ("<" ++ (DATADOG_AGENT_GITHUB_ORG_URL ++ "/" ++ proj ++ "/pull/") ++ "|#>") := by
  have h0 : ∀ c ∈ ("" : String).data, c.isDigit = true := by
    intro c hc
    cases hc
  have hpid : trailingPrId (t ++ "(#)") = some "" := by
    have hc := trailingPrId_complete t "" h0
    have heq : t ++ "(#" ++ "" ++ ")" = t ++ "(#)" := by
      simp [String.append_assoc]
    rwa [heq] at hc
  constructor
  · simp [get_pr_from_commit, hpid, String.append_empty]
  · simp [enhanced_commit_title, get_pr_from_commit, hpid, String.append_empty,
      String.append_assoc]

/-- C10 witness: the statement applied to the title `"Fix bug (#)"` with
project `"datadog-agent"`. -/
theorem claim_C10_witness :
    get_pr_from_commit ("Fix bug " ++ "(#)") "datadog-agent"
      = some ("", DATADOG_AGENT_GITHUB_ORG_URL ++ "/" ++ "datadog-agent" ++ "/pull/")
    ∧ enhanced_commit_title ("Fix bug " ++ "(#)") "datadog-agent"
      = ("Fix bug " ++ "(#)").replace "#"
          ("<" ++ (DATADOG_AGENT_GITHUB_ORG_URL ++ "/" ++ "datadog-agent" ++ "/pull/")
            ++ "|#>") :=
  claim_C10 "Fix bug " "datadog-agent"

/-- C9: an entry of the channel/project map source whose key or value is
not a string makes `load_and_validate` abort with the descriptive
`ValueError` message, returning no mapping; and for every entry whose
value equals the reserved placeholder token, the loaded mapping maps its
key to the documented default value instead. -/
theorem claim_C9
    : (∀ (items : List (YamlValue × YamlValue)) (fn ph dv : String) (k v : YamlValue),
        (k, v) ∈ items → (k.isStr && v.isStr) = false →
        load_and_validate items fn ph dv
          = .error ("File " ++ fn ++ " contains a non-string key or value."))
      ∧ (∀ (items : List (YamlValue × YamlValue)) (fn ph dv : String) (k : String),
          (∀ e ∈ items, (e.1.isStr && e.2.isStr) = true) →
          (items.map Prod.fst).Nodup →
          (YamlValue.str k, YamlValue.str ph) ∈ items →
          ∃ m, load_and_validate items fn ph dv = .ok m ∧ lookupAssoc m k = some dv) :=
  ⟨fun items fn ph dv k v hm hb => lav_go_error fn ph dv items [] k v hm hb,
    fun items fn ph dv k hg hnd hm => lav_go_placeholder fn ph dv items [] k hg hnd hm⟩

/-- C9 witness: a non-string value aborts the load of a concrete source,
and a placeholder-valued entry of a well-formed source loads as the
default value. -/
theorem claim_C9_witness :
    load_and_validate [(YamlValue.str "teamx", YamlValue.other)]
        "github_slack_map.yaml" "DEFAULT_SLACK_CHANNEL" "#agent-developer-experience"
      = .error "File github_slack_map.yaml contains a non-string key or value."
    ∧ ∃ m, load_and_validate
          [(YamlValue.str "teama", YamlValue.str "DEFAULT_SLACK_CHANNEL")]
          "github_slack_map.yaml" "DEFAULT_SLACK_CHANNEL" "#agent-developer-experience"
        = .ok m ∧ lookupAssoc m "teama" = some "#agent-developer-experience" :=
  ⟨by
    have h := claim_C9.1 [(YamlValue.str "teamx", YamlValue.other)]
      "github_slack_map.yaml" "DEFAULT_SLACK_CHANNEL" "#agent-developer-experience"
      (YamlValue.str "teamx") YamlValue.other (by decide) (by decide)
    simpa using h,
    claim_C9.2 [(YamlValue.str "teama", YamlValue.str "DEFAULT_SLACK_CHANNEL")]
      "github_slack_map.yaml" "DEFAULT_SLACK_CHANNEL" "#agent-developer-experience"
      "teama" (by decide) (by decide) (by decide)⟩
